import Mathlib

/-!
Verification of the board-inference / move-selection engine of the
openshortlink mines-bot repository.

Two analyzer implementations are embedded:
* the site-specific analyzer (class GameAnalyzer with getNextMove /
  getProbabilityMove / getNeighbors, working over a flat list of cells),
  namespace SiteAnalyzer below;
* the generic analyzer of src/game.js together with the helpers of
  src/utils.js (MathUtils, PatternUtils), working over a row-major grid,
  namespace GridAnalyzer below.

All JS numbers that carry probabilities, scores or mine counts are
modelled as rationals; cell coordinates and cell numbers are integers.
-/

/-- The eight (dx, dy) offsets in the order both analyzers visit them:
the explicit directions array of src/game.js and the nested loops
(dx = -1..1 outer, dy = -1..1 inner, skipping (0,0)) of the site
analyzer produce exactly this sequence. -/
def neighborOffsets : List (Int × Int) :=
  [(-1, -1), (-1, 0), (-1, 1), (0, -1), (0, 1), (1, -1), (1, 0), (1, 1)]

namespace SiteAnalyzer

/-- A cell as produced by analyzeBoard: coordinates, revealed/flagged
flags and a number (parseInt of the cell text, defaulting to 0), so the
number field is always present. -/
structure CellA where
  x : Int
  y : Int
  revealed : Bool
  flagged : Bool
  number : Int
deriving DecidableEq

/-- The move object returned by getNextMove: action is the JS string
field, confidence the numeric field. -/
inductive ActionA where
  | click
  | flag
deriving DecidableEq

structure MoveA where
  x : Int
  y : Int
  action : ActionA
  confidence : ℚ
deriving DecidableEq

/-- allCells.find of the cell at given coordinates. -/
def findCell (cells : List CellA) (x y : Int) : Option CellA :=
  cells.find? (fun c => c.x == x && c.y == y)

/-- getNeighbors(cell, allCells): for each offset, look the neighbor up in
the flat cell list and keep it when found. -/
def getNeighbors (cells : List CellA) (c : CellA) : List CellA :=
  neighborOffsets.filterMap (fun d => findCell cells (c.x + d.1) (c.y + d.2))

/-- The flagged neighbors of a cell. -/
def flaggedNeighbors (cells : List CellA) (c : CellA) : List CellA :=
  (getNeighbors cells c).filter (fun n => n.flagged)

/-- The hidden (neither revealed nor flagged) neighbors of a cell. -/
def hiddenNeighbors (cells : List CellA) (c : CellA) : List CellA :=
  (getNeighbors cells c).filter (fun n => !n.revealed && !n.flagged)

/-- The filter numberedCells of getNextMove: revealed cells whose number
is strictly positive. -/
def numberedCells (cells : List CellA) : List CellA :=
  cells.filter (fun c => c.revealed && decide (0 < c.number))

/-- The body of the getNextMove loop for one numbered cell: the
SAFE-REVEAL check (flagged count equals the number) is made first and,
when it produces no move, the FORCED-FLAG check
(hidden count + flagged count equals the number) follows.  Either check
returns a single move targeting the FIRST hidden neighbor. -/
def deduceMove (cells : List CellA) (c : CellA) : Option MoveA :=
  let hidden := hiddenNeighbors cells c
  let flagged := flaggedNeighbors cells c
  if (flagged.length : Int) = c.number ∧ hidden ≠ [] then
    hidden.head?.map (fun h => ⟨h.x, h.y, ActionA.click, 1⟩)
  else if (hidden.length : Int) + flagged.length = c.number ∧ hidden ≠ [] then
    hidden.head?.map (fun h => ⟨h.x, h.y, ActionA.flag, 1⟩)
  else
    none

/-- getNextMove: iterate over the numbered cells in list order and return
the first deduced move, or null when no rule fires anywhere. -/
def getNextMove (cells : List CellA) : Option MoveA :=
  (numberedCells cells).findSome? (deduceMove cells)

/-- The hidden cells of the board (getProbabilityMove candidate list). -/
def hiddenCells (cells : List CellA) : List CellA :=
  cells.filter (fun c => !c.revealed && !c.flagged)

/-- The revealed numbered neighbors a hidden cell is scored against. -/
def numberedNeighbors (cells : List CellA) (c : CellA) : List CellA :=
  (getNeighbors cells c).filter (fun n => n.revealed && decide (0 < n.number))

/-- One iteration of the probability loop of getProbabilityMove: when the
neighbor has hidden neighbors, raise the running probability to the local
estimate (number minus flagged count, over hidden count). -/
def probStep (cells : List CellA) (p : ℚ) (n : CellA) : ℚ :=
  let flaggedCount := (flaggedNeighbors cells n).length
  let hiddenCount := (hiddenNeighbors cells n).length
  if 0 < hiddenCount then
    max p (((n.number : ℚ) - flaggedCount) / hiddenCount)
  else
    p

/-- The mine probability getProbabilityMove assigns to one hidden cell:
fold of probStep over the revealed numbered neighbors, starting from the
base probability 0.15. -/
def mineProbability (cells : List CellA) (c : CellA) : ℚ :=
  (numberedNeighbors cells c).foldl (probStep cells) (15 / 100)

/-- The probability assignment of getProbabilityMove: every hidden cell
paired with its estimate. -/
def probabilityAssignment (cells : List CellA) : List (CellA × ℚ) :=
  (hiddenCells cells).map (fun c => (c, mineProbability cells c))

/-- Local probability as the specification words it: (neighbor.number −
flaggedNeighborsOfNeighbor) / hiddenNeighborsOfNeighbor, taking 0 when
the denominator is 0.  Used to compare mineProbability against the
specified maximum. -/
def specLocalProbability (cells : List CellA) (n : CellA) : ℚ :=
  let flaggedCount := (flaggedNeighbors cells n).length
  let hiddenCount := (hiddenNeighbors cells n).length
  if hiddenCount = 0 then 0
  else ((n.number : ℚ) - flaggedCount) / hiddenCount

end SiteAnalyzer

namespace GridAnalyzer

/-- A cell of the row-major grid consumed by src/game.js.  The parsers
(parseGameGrid, parseBanditCampGrid) store the cell coordinates on the
cell itself; the number field is parseInt of the cell text or undefined.
In getNeighbors the object spread lets the stored coordinates override
the computed ones, so they are part of the model. -/
structure CellG where
  x : Int
  y : Int
  isRevealed : Bool
  isFlagged : Bool
  number : Option Int
deriving DecidableEq

abbrev Grid := List (List CellG)

/-- JS move.type field of findPossibleMoves / executeMove. -/
inductive MoveType where
  | reveal
  | flag
deriving DecidableEq

/-- A candidate move pushed by findPossibleMoves. -/
structure CandMove where
  x : Int
  y : Int
  mtype : MoveType
  cell : CellG
deriving DecidableEq

/-- PatternUtils pattern tags. -/
inductive PatternType where
  | oneTwoOne
  | corner
  | edge
deriving DecidableEq

structure Pattern where
  ptype : PatternType
  confidence : ℚ
deriving DecidableEq

/-- A candidate move after analyzeGameState has attached safetyScore,
patterns and probability (the aggressive branch also copies safetyScore
into a weight field, which nothing reads afterwards, so it is not
modelled). -/
structure ScoredMove where
  x : Int
  y : Int
  mtype : MoveType
  cell : CellG
  safetyScore : ℚ
  patterns : List Pattern
  probability : ℚ
deriving DecidableEq

/-- JS bracket access l[i]: undefined for a negative or out-of-range
index. -/
def idx? (l : List α) (i : Int) : Option α :=
  if 0 ≤ i then l[i.toNat]? else none

/-- grid[0].length, the width every bound check of game.js uses
(row 0 is the measure even on ragged grids). -/
def row0len (grid : Grid) : Nat := (grid.headD []).length

/-- grid[ny][nx] as the JS expression evaluates: undefined when the row
is missing or shorter than nx. -/
def cellAt (grid : Grid) (x y : Int) : Option CellG :=
  (idx? grid y).bind (fun row => idx? row x)

/-- The object getNeighbors pushes: spread of the stored cell over the
computed coordinates; when the cell is missing (ragged row) every cell
field of the pushed object is undefined, which downstream code reads as
false / absent number. -/
def spreadCell (nx ny : Int) : Option CellG → CellG
  | some c => c
  | none => ⟨nx, ny, false, false, none⟩

/-- getNeighbors(x, y, grid): the in-bounds offsets (bounds taken from
row 0 and the row count), each looked up and spread. -/
def getNeighborsG (grid : Grid) (x y : Int) : List CellG :=
  (neighborOffsets.filter (fun d =>
      decide (0 ≤ x + d.1) && decide (x + d.1 < (row0len grid : Int)) &&
      decide (0 ≤ y + d.2) && decide (y + d.2 < (grid.length : Int)))).map
    (fun d => spreadCell (x + d.1) (y + d.2) (cellAt grid (x + d.1) (y + d.2)))

/-- analyzeNeighborhood(x, y, grid). -/
structure NeighborhoodInfo where
  totalNeighbors : Nat
  revealedNeighbors : Nat
  flaggedMines : Nat
  unrevealedCells : Nat
deriving DecidableEq

def analyzeNeighborhood (grid : Grid) (x y : Int) : NeighborhoodInfo :=
  let neighbors := getNeighborsG grid x y
  ⟨neighbors.length,
   (neighbors.filter (fun n => n.isRevealed)).length,
   (neighbors.filter (fun n => n.isFlagged)).length,
   (neighbors.filter (fun n => !n.isRevealed && !n.isFlagged)).length⟩

/-- PatternUtils.detect121Pattern. -/
def detect121Pattern (grid : Grid) (x y : Int) : Bool :=
  match cellAt grid x y with
  | none => false
  | some c =>
    if !c.isRevealed || !(c.number == some 2) then false
    else
      let lft := cellAt grid (x - 1) y
      let rgt := cellAt grid (x + 1) y
      let horiz := match lft, rgt with
        | some l, some r => l.number == some 1 && r.number == some 1
        | _, _ => false
      let tp := cellAt grid x (y - 1)
      let bt := cellAt grid x (y + 1)
      let vert := match tp, bt with
        | some t, some b => t.number == some 1 && b.number == some 1
        | _, _ => false
      horiz || vert

/-- PatternUtils.detectCornerPattern (its maxX falls back to 0 when the
grid has no row 0). -/
def detectCornerPattern (grid : Grid) (x y : Int) : Bool :=
  let maxX : Int := match grid.head? with
    | some r => (r.length : Int) - 1
    | none => 0
  let maxY : Int := (grid.length : Int) - 1
  (x == 0 || x == maxX) && (y == 0 || y == maxY)

/-- PatternUtils.detectEdgePattern. -/
def detectEdgePattern (grid : Grid) (x y : Int) : Bool :=
  let maxX : Int := match grid.head? with
    | some r => (r.length : Int) - 1
    | none => 0
  let maxY : Int := (grid.length : Int) - 1
  x == 0 || x == maxX || y == 0 || y == maxY

/-- PatternUtils.detectPatterns: 1-2-1 (confidence 0.9), corner (0.8),
edge (0.7), in this order. -/
def detectPatterns (grid : Grid) (x y : Int) : List Pattern :=
  (if detect121Pattern grid x y then [⟨PatternType.oneTwoOne, 9/10⟩] else []) ++
  (if detectCornerPattern grid x y then [⟨PatternType.corner, 8/10⟩] else []) ++
  (if detectEdgePattern grid x y then [⟨PatternType.edge, 7/10⟩] else [])

/-- GameAnalyzer.isFirstMove: no cell revealed anywhere. -/
def isFirstMove (grid : Grid) : Bool :=
  grid.all (fun row => row.all (fun c => !c.isRevealed))

/-- GameAnalyzer.isEdgeCell. -/
def isEdgeCell (grid : Grid) (x y : Int) : Bool :=
  x == 0 || x == (row0len grid : Int) - 1 || y == 0 || y == (grid.length : Int) - 1

/-- GameAnalyzer.isCornerCell (the class defines it twice; the later
definition wins in JS, and both are equivalent). -/
def isCornerCell (grid : Grid) (x y : Int) : Bool :=
  (x == 0 || x == (row0len grid : Int) - 1) && (y == 0 || y == (grid.length : Int) - 1)

/-- Math.max(0, Math.min(1, q)). -/
def clamp01 (q : ℚ) : ℚ := max 0 (min 1 q)

/-- One numbered-neighbor contribution inside calculateSafetyScore:
+0.4 when the neighbor is satisfied, then minus localProbability * 0.3
when it still has unrevealed cells. -/
def neighborScoreStep (grid : Grid) (s : ℚ) (n : CellG) : ℚ :=
  if n.isRevealed && n.number.isSome then
    let num : Int := n.number.getD 0
    let info := analyzeNeighborhood grid n.x n.y
    let s1 := if (info.flaggedMines : Int) = num then s + 4/10 else s
    if 0 < info.unrevealedCells then
      s1 - ((num : ℚ) - info.flaggedMines) / info.unrevealedCells * (3/10)
    else s1
  else s

/-- GameAnalyzer.calculateSafetyScore: base 0.5, neighbor analysis,
pattern bonuses, edge/corner penalties, first-move center bonus, clamp
to the unit interval. -/
def calculateSafetyScore (grid : Grid) (mx my : Int) : ℚ :=
  let s1 := (getNeighborsG grid mx my).foldl (neighborScoreStep grid) (1/2)
  let s2 := (detectPatterns grid mx my).foldl (fun a p => a + p.confidence * (1/10)) s1
  let s3 := if isEdgeCell grid mx my then s2 - 5/100 else s2
  let s4 := if isCornerCell grid mx my then s3 - 1/10 else s3
  let s5 := if isFirstMove grid then
      let centerX : Int := (row0len grid : Int) / 2
      let centerY : Int := (grid.length : Int) / 2
      let distance : Int := (mx - centerX).natAbs + (my - centerY).natAbs
      s4 + (10 - (distance : ℚ)) * (5/100)
    else s4
  clamp01 s5

/-- Revealed cells of the whole grid, counted row by row. -/
def countRevealed (grid : Grid) : Nat :=
  (grid.map (fun row => (row.filter (fun c => c.isRevealed)).length)).sum

/-- GameAnalyzer.countFlaggedMines. -/
def countFlagged (grid : Grid) : Nat :=
  (grid.map (fun row => (row.filter (fun c => c.isFlagged)).length)).sum

/-- GameAnalyzer.calculateMineProbability: remaining mines over
unrevealed cells, 0 when no unrevealed cell remains; the move argument
of the JS function is unused.  Note: no clamping of the quotient. -/
def calculateMineProbability (grid : Grid) (totalMines : ℚ) : ℚ :=
  let flaggedMines := countFlagged grid
  let totalCells : Int := grid.length * row0len grid
  let unrevealedCells : Int := totalCells - countRevealed grid - flaggedMines
  if unrevealedCells ≤ 0 then 0
  else (totalMines - flaggedMines) / (unrevealedCells : ℚ)

/-- The moves of one row of findPossibleMoves, x counting from the given
start. -/
def rowMoves (y : Int) : Int → List CellG → List CandMove
  | _, [] => []
  | x, c :: rest =>
    (if !c.isRevealed && !c.isFlagged then [⟨x, y, MoveType.reveal, c⟩] else []) ++
    rowMoves y (x + 1) rest

/-- The rows of findPossibleMoves, y counting from the given start. -/
def gridMoves : Int → Grid → List CandMove
  | _, [] => []
  | y, row :: rest => rowMoves y 0 row ++ gridMoves (y + 1) rest

/-- GameAnalyzer.findPossibleMoves: every cell that is neither revealed
nor flagged, in row-major order, as a reveal move. -/
def findPossibleMoves (grid : Grid) : List CandMove :=
  gridMoves 0 grid

/-- The scoring map of analyzeGameState: attach safetyScore, patterns
and probability to a candidate move. -/
def scoreMove (grid : Grid) (mines : ℚ) (m : CandMove) : ScoredMove :=
  ⟨m.x, m.y, m.mtype, m.cell,
   calculateSafetyScore grid m.x m.y,
   detectPatterns grid m.x m.y,
   calculateMineProbability grid mines⟩

/-- The scored candidate list analyzeGameState builds for a grid. -/
def scoredMovesOf (grid : Grid) (mines : ℚ) : List ScoredMove :=
  (findPossibleMoves grid).map (scoreMove grid mines)

/-- Stable insertion step for the descending sort by safetyScore. -/
def insertDesc (m : ScoredMove) : List ScoredMove → List ScoredMove
  | [] => [m]
  | a :: rest =>
    if a.safetyScore ≤ m.safetyScore then m :: a :: rest
    else a :: insertDesc m rest

/-- The sort of analyzeGameState: comparator (a, b) => b.safetyScore -
a.safetyScore, i.e. descending by safetyScore; Array.prototype.sort is
stable (ES2019), which a stable insertion sort reproduces exactly. -/
def sortByScoreDesc : List ScoredMove → List ScoredMove
  | [] => []
  | m :: rest => insertDesc m (sortByScoreDesc rest)

/-- The subtraction loop of MathUtils.weightedRandomChoice. -/
def wrcLoop (random : ℚ) : List ScoredMove → Option ScoredMove
  | [] => none
  | o :: rest =>
    if random - o.safetyScore ≤ 0 then some o
    else wrcLoop (random - o.safetyScore) rest

/-- MathUtils.weightedRandomChoice over moves whose weight field was set
to their safetyScore, with Math.random() modelled as the parameter r:
subtract weights from r times the total weight and return the option
where the remainder drops to 0 or below, falling back to the last
element. -/
def weightedRandomChoice (r : ℚ) (options : List ScoredMove) : Option ScoredMove :=
  let totalWeight := (options.map (fun o => o.safetyScore)).foldl (· + ·) 0
  match wrcLoop (r * totalWeight) options with
  | some o => some o
  | none => options.getLast?

/-- The strategy configuration analyzeGameState reads:
CONSERVATIVE_MODE and PROBABILITY_THRESHOLD. -/
structure Config where
  conservativeMode : Bool
  probabilityThreshold : ℚ
deriving DecidableEq

/-- GameAnalyzer.selectBestMove on the sorted scored list: conservative
returns the first (safest) move; aggressive filters by the threshold,
takes the top 3 and chooses by weighted random, falling back to the
safest move. -/
def selectBestMove (cfg : Config) (r : ℚ) (scoredMoves : List ScoredMove) :
    Option ScoredMove :=
  match scoredMoves with
  | [] => none
  | _ =>
    if cfg.conservativeMode then scoredMoves.head?
    else
      let goodMoves := scoredMoves.filter
        (fun m => decide (cfg.probabilityThreshold < m.safetyScore))
      match goodMoves with
      | [] => scoredMoves.head?
      | _ => weightedRandomChoice r (goodMoves.take 3)

/-- The error thrown inside analyzeGameState (new Error) when the grid
is not an array. -/
inductive AnalyzeError where
  | invalidGrid
deriving DecidableEq

/-- The game state passed to analyzeGameState: the grid slot is an
Option because the JS guard rejects null/undefined/non-array values. -/
structure GameStateG where
  grid : Option Grid
  mines : ℚ
deriving DecidableEq

/-- The body of the try block of analyzeGameState: throw on a non-array
grid, return null on an empty candidate list, otherwise score, sort and
select. -/
def analyzeGameStateCore (cfg : Config) (r : ℚ) (gs : GameStateG) :
    Except AnalyzeError (Option ScoredMove) :=
  match gs.grid with
  | none => Except.error AnalyzeError.invalidGrid
  | some grid =>
    match findPossibleMoves grid with
    | [] => Except.ok none
    | _ :: _ =>
      let scoredMoves := scoredMovesOf grid gs.mines
      Except.ok (selectBestMove cfg r (sortByScoreDesc scoredMoves))

/-- GameAnalyzer.analyzeGameState: the catch block logs the error and
returns null, so every internal throw is converted into the no-move
result. -/
def analyzeGameState (cfg : Config) (r : ℚ) (gs : GameStateG) : Option ScoredMove :=
  match analyzeGameStateCore cfg r gs with
  | Except.error _ => none
  | Except.ok m => m

/-- GameAnalyzer.getHistoricalSafetyScore: a constant 0.05 bonus. -/
def getHistoricalSafetyScore (_x _y : Int) : ℚ := 5/100

/-- GameAnalyzer.analyzeNeighborsForCheating: 0.15 for having revealed
neighbors, +0.2 per zero neighbor, +0.1 per low-density neighbor, capped
at 0.4.  The surrounding count filters only on isRevealed. -/
def analyzeNeighborsForCheating (grid : Grid) (neighbors : List CellG) : ℚ :=
  let revealedNs := neighbors.filter (fun n => n.isRevealed)
  let s := if revealedNs = [] then 0 else
    revealedNs.foldl (fun a n =>
      if n.number.isSome then
        let surroundingUnrevealed :=
          ((getNeighborsG grid n.x n.y).filter (fun m => !m.isRevealed)).length
        if n.number == some 0 then a + 2/10
        else if ((n.number.getD 0 : Int) : ℚ) ≤ (surroundingUnrevealed : ℚ) / 2 then a + 1/10
        else a
      else a) (15/100)
  min (4/10) s

/-- GameAnalyzer.calculateProbabilityBasedScore. -/
def calculateProbabilityBasedScore (grid : Grid) (mines : ℚ) : ℚ :=
  let totalCells : Int := grid.length * row0len grid
  let remainingCells : Int := totalCells - countRevealed grid
  let remainingMines : ℚ := mines - countFlagged grid
  if remainingCells = 0 ∨ remainingMines ≤ 0 then 1/2
  else max 0 (1/2 - remainingMines / (remainingCells : ℚ))

/-- GameAnalyzer.detectAdvancedPatterns tags. -/
inductive AdvPattern where
  | cornerSafe
  | edgeSafe
  | isolatedSafe
  | zeroAdjacent
deriving DecidableEq

/-- GameAnalyzer.detectAdvancedPatterns: corner, edge, isolated and
zero-adjacent tags in push order. -/
def detectAdvancedPatterns (grid : Grid) (x y : Int) : List AdvPattern :=
  let revealedNs := (getNeighborsG grid x y).filter (fun n => n.isRevealed)
  (if isCornerCell grid x y then [AdvPattern.cornerSafe] else []) ++
  (if isEdgeCell grid x y then [AdvPattern.edgeSafe] else []) ++
  (if revealedNs = [] then [AdvPattern.isolatedSafe] else []) ++
  (if revealedNs.filter (fun n => n.number == some 0) ≠ [] then [AdvPattern.zeroAdjacent] else [])

/-- GameAnalyzer.getPatternRecognitionBonus: 0.15 / 0.1 / 0.2 for
corner-safe / edge-safe / isolated-safe, capped at 0.3. -/
def getPatternRecognitionBonus (grid : Grid) (x y : Int) : ℚ :=
  let pats := detectAdvancedPatterns grid x y
  let b1 : ℚ := if pats.contains AdvPattern.cornerSafe then 15/100 else 0
  let b2 : ℚ := if pats.contains AdvPattern.edgeSafe then 1/10 else 0
  let b3 : ℚ := if pats.contains AdvPattern.isolatedSafe then 2/10 else 0
  min (3/10) (b1 + b2 + b3)

/-- GameAnalyzer.calculateCheatingSafetyScore: combine the bonuses, cap
at 1, boost by 1.2 and clamp to the unit interval. -/
def calculateCheatingSafetyScore (grid : Grid) (mines : ℚ) (x y : Int) : ℚ :=
  let cornerBonus : ℚ := if isCornerCell grid x y then 2/10 else 0
  let edgeBonus : ℚ := if isEdgeCell grid x y then 1/10 else 0
  let historyBonus := getHistoricalSafetyScore x y
  let neighborAnalysis := analyzeNeighborsForCheating grid (getNeighborsG grid x y)
  let probabilityScore := calculateProbabilityBasedScore grid mines
  let patternBonus := getPatternRecognitionBonus grid x y
  let s := min 1 (1/2 + cornerBonus + edgeBonus + historyBonus +
    neighborAnalysis + probabilityScore + patternBonus)
  max 0 (min 1 (s * (12/10)))

/-- The revealed neighbors with a defined number that the enhanced
probability averages over. -/
def revealedNumberNeighbors (grid : Grid) (x y : Int) : List CellG :=
  (getNeighborsG grid x y).filter (fun n => n.isRevealed && n.number.isSome)

/-- GameAnalyzer.calculateEnhancedMineProbability: base probability,
times 0.7 for a corner else 0.8 for an edge, times 0.6 when the average
revealed-neighbor number is below 2, clamped to the unit interval. -/
def calculateEnhancedMineProbability (grid : Grid) (mines : ℚ) (x y : Int) : ℚ :=
  let p0 := calculateMineProbability grid mines
  let p1 := if isCornerCell grid x y then p0 * (7/10)
            else if isEdgeCell grid x y then p0 * (8/10)
            else p0
  let revealedNs := revealedNumberNeighbors grid x y
  let p2 :=
    if revealedNs ≠ [] then
      let avg := ((revealedNs.map (fun n => ((n.number.getD 0 : Int) : ℚ))).foldl (· + ·) 0) /
        (revealedNs.length : ℚ)
      if avg < 2 then p1 * (6/10) else p1
    else p1
  max 0 (min 1 p2)

/-- The corner/edge multiplier of the boosted variant as the
specification words it: 0.7 for corners, else 0.8 for edges, else 1 (the
two factors mutually exclusive). -/
def specCornerEdgeFactor (grid : Grid) (x y : Int) : ℚ :=
  if isCornerCell grid x y then 7/10
  else if isEdgeCell grid x y then 8/10
  else 1

/-- The mean number over the revealed numbered neighbors of a cell. -/
def specAvgNeighborNumber (grid : Grid) (x y : Int) : ℚ :=
  ((( revealedNumberNeighbors grid x y).map
      (fun n => ((n.number.getD 0 : Int) : ℚ))).foldl (· + ·) 0) /
    ((revealedNumberNeighbors grid x y).length : ℚ)

/-- The low-average multiplier as the specification words it: 0.6 when
the cell has revealed numbered neighbors of mean number below 2. -/
def specLowAvgFactor (grid : Grid) (x y : Int) : ℚ :=
  if revealedNumberNeighbors grid x y ≠ [] ∧ specAvgNeighborNumber grid x y < 2 then 6/10
  else 1

/-- The combined pre-boost cheating score (everything of
calculateCheatingSafetyScore up to and including the cap at 1, before
the 1.2 confidence multiplier). -/
def specPreCheatScore (grid : Grid) (mines : ℚ) (x y : Int) : ℚ :=
  min 1 (1/2 +
    (if isCornerCell grid x y then (2/10 : ℚ) else 0) +
    (if isEdgeCell grid x y then (1/10 : ℚ) else 0) +
    getHistoricalSafetyScore x y +
    analyzeNeighborsForCheating grid (getNeighborsG grid x y) +
    calculateProbabilityBasedScore grid mines +
    getPatternRecognitionBonus grid x y)

/-- The base-rate formula as the specification words it: remaining mines
over the count of hidden cells (total minus revealed minus flagged),
with no clamping. -/
def specBaseRate (grid : Grid) (totalMines : ℚ) : ℚ :=
  (totalMines - countFlagged grid) /
    (((grid.length * row0len grid : Nat) : ℚ) - countRevealed grid - countFlagged grid)

/-- The first element of a list attaining the maximal safetyScore, as
the deterministic tie-break of a stable descending sort produces it. -/
def firstArgMax : List ScoredMove → Option ScoredMove
  | [] => none
  | a :: rest =>
    match firstArgMax rest with
    | none => some a
    | some b => some (if a.safetyScore < b.safetyScore then b else a)

/-- A hidden cell of a concrete grid. -/
def hiddenCellG (x y : Int) : CellG := ⟨x, y, false, false, none⟩

/-- A revealed cell with number 0 of a concrete grid. -/
def revealedZeroCellG (x y : Int) : CellG := ⟨x, y, true, false, some 0⟩

/-- A fully hidden rectangular grid of the given width and height. -/
def fullyHiddenGrid (w h : Nat) : Grid :=
  (List.range h).map (fun y => (List.range w).map (fun x => hiddenCellG x y))

/-- The 5 x 5 fully hidden board of the base-rate scenario. -/
def grid55 : Grid := fullyHiddenGrid 5 5

/-- A 1 x 2 fully hidden board (used with an inconsistent mine count). -/
def gridTwoHidden : Grid := [[hiddenCellG 0 0, hiddenCellG 1 0]]

/-- A 4 x 4 board with revealed zeros at (0,0), (2,2) and (2,3): the
hidden cells (1,1), (1,2), (3,2), (1,3) and (3,3) all clamp to safety
score 1, so the non-corner interior cell (1,1) ties with the corner
(3,3) at the maximal score. -/
def gridC8 : Grid :=
  [[revealedZeroCellG 0 0, hiddenCellG 1 0, hiddenCellG 2 0, hiddenCellG 3 0],
   [hiddenCellG 0 1, hiddenCellG 1 1, hiddenCellG 2 1, hiddenCellG 3 1],
   [hiddenCellG 0 2, hiddenCellG 1 2, revealedZeroCellG 2 2, hiddenCellG 3 2],
   [hiddenCellG 0 3, hiddenCellG 1 3, revealedZeroCellG 2 3, hiddenCellG 3 3]]

/-- A ragged grid: rows of inconsistent lengths 2 and 1. -/
def gridRagged : Grid := [[hiddenCellG 0 0, hiddenCellG 1 0], [hiddenCellG 0 1]]

/-- A 1 x 1 board whose only cell is revealed: no candidate moves. -/
def gridAllRevealed : Grid := [[revealedZeroCellG 0 0]]

/-- A conservative-mode configuration. -/
def cfgCons : Config := ⟨true, 1/2⟩

/-- The game state whose grid slot holds a non-array value. -/
def gsBadGrid : GameStateG := ⟨none, 5⟩

/-- Game state for the tie-break board. -/
def gsC8 : GameStateG := ⟨some gridC8, 3⟩

/-- Game state for the ragged board. -/
def gsRagged : GameStateG := ⟨some gridRagged, 5⟩

/-- Game state for the fully revealed board. -/
def gsAllRevealed : GameStateG := ⟨some gridAllRevealed, 5⟩

/-- Game state for the two-cell hidden board. -/
def gsTwoHidden : GameStateG := ⟨some gridTwoHidden, 5⟩

/-- Two scored candidates with equal safetyScore: the earlier one is
interior, the later one a corner of a 4 x 4 board. -/
def tiedMoveA : ScoredMove := ⟨1, 1, MoveType.reveal, hiddenCellG 1 1, 1, [], 0⟩

def tiedMoveB : ScoredMove := ⟨3, 3, MoveType.reveal, hiddenCellG 3 3, 1, [], 0⟩

def tiedList : List ScoredMove := [tiedMoveA, tiedMoveB]

end GridAnalyzer

namespace SiteAnalyzer

/-- Board for the SAFE-REVEAL rule: (0,0) revealed 1, (1,0) flagged,
(0,1) and (1,1) hidden; the rule applies to both hidden neighbors. -/
def boardA1 : List CellA :=
  [⟨0, 0, true, false, 1⟩, ⟨1, 0, false, true, 0⟩,
   ⟨0, 1, false, false, 0⟩, ⟨1, 1, false, false, 0⟩]

/-- Board for the FORCED-FLAG rule: (0,0) revealed 2 with exactly the
two hidden neighbors (0,1) and (1,1). -/
def boardA2 : List CellA :=
  [⟨0, 0, true, false, 2⟩, ⟨0, 1, false, false, 0⟩, ⟨1, 1, false, false, 0⟩]

/-- Contradictory board: (0,0) revealed 1 with flagged neighbor (0,1)
concludes the hidden (1,0) is safe, while (2,0) revealed 1 with sole
hidden neighbor (1,0) concludes the same cell is a mine. -/
def boardA3 : List CellA :=
  [⟨0, 0, true, false, 1⟩, ⟨1, 0, false, false, 0⟩,
   ⟨2, 0, true, false, 1⟩, ⟨0, 1, false, true, 0⟩]

/-- Board for the probability estimate: hidden (0,0) next to the
revealed 2 at (1,0), which has flagged neighbor (1,1) and the two
hidden neighbors (0,0) and (2,1). -/
def boardA5 : List CellA :=
  [⟨0, 0, false, false, 0⟩, ⟨1, 0, true, false, 2⟩,
   ⟨1, 1, false, true, 0⟩, ⟨2, 1, false, false, 0⟩]

end SiteAnalyzer

/-!
Helper lemmas.
-/

/-- A findSome? scan returns the image of the first element on which the
function fires, given that it fires nowhere earlier. -/
theorem findSome?_first {α β : Type} (f : α → Option β) (l₁ l₂ : List α) (c : α) (m : β)
    (h₁ : ∀ a ∈ l₁, f a = none) (hc : f c = some m) :
    (l₁ ++ c :: l₂).findSome? f = some m := by
  induction l₁ with
  | nil => simp [List.findSome?, hc]
  | cons a t ih =>
    have ha : f a = none := h₁ a (List.mem_cons_self a t)
    simp only [List.cons_append, List.findSome?, ha]
    exact ih (fun b hb => h₁ b (List.mem_cons_of_mem a hb))

/-- Folding max from a two-sided start splits into a max with the fold
from the second start. -/
theorem foldl_max_shift (L : List ℚ) : ∀ a b : ℚ, L.foldl max (max a b) = max a (L.foldl max b) := by
  induction L with
  | nil => intro a b; rfl
  | cons q t ih =>
    intro a b
    simp only [List.foldl]
    rw [max_assoc, ih]

namespace SiteAnalyzer

/-- The head of a list is a member. -/
theorem headMem {α : Type} {l : List α} {a : α} (h : l.head? = some a) : a ∈ l := by
  cases l with
  | nil => simp at h
  | cons b t =>
    have hb : b = a := by simpa using h
    rw [← hb]
    exact List.mem_cons_self b t

/-- When the SAFE-REVEAL condition holds for a numbered cell, the loop
body returns a click move at the first hidden neighbor. -/
theorem deduceMove_safe (cells : List CellA) (c h : CellA)
    (hflag : ((flaggedNeighbors cells c).length : Int) = c.number)
    (hhead : (hiddenNeighbors cells c).head? = some h) :
    deduceMove cells c = some ⟨h.x, h.y, ActionA.click, 1⟩ := by
  have hne : hiddenNeighbors cells c ≠ [] := by
    intro h0
    rw [h0] at hhead
    simp at hhead
  simp only [deduceMove]
  rw [if_pos ⟨hflag, hne⟩, hhead]
  rfl

/-- When the FORCED-FLAG condition holds (and hence the SAFE-REVEAL
condition cannot), the loop body returns a flag move at the first hidden
neighbor. -/
theorem deduceMove_forced (cells : List CellA) (c h : CellA)
    (hsum : ((hiddenNeighbors cells c).length : Int) + (flaggedNeighbors cells c).length = c.number)
    (hhead : (hiddenNeighbors cells c).head? = some h) :
    deduceMove cells c = some ⟨h.x, h.y, ActionA.flag, 1⟩ := by
  have hne : hiddenNeighbors cells c ≠ [] := by
    intro h0
    rw [h0] at hhead
    simp at hhead
  have hlen : 0 < (hiddenNeighbors cells c).length := List.length_pos.mpr hne
  have hnotsafe : ¬(((flaggedNeighbors cells c).length : Int) = c.number ∧
      hiddenNeighbors cells c ≠ []) := by
    rintro ⟨hf, -⟩
    omega
  simp only [deduceMove]
  rw [if_neg hnotsafe, if_pos ⟨hsum, hne⟩, hhead]
  rfl

/-- Folding probStep equals folding the max with the specified local
probability, for any non-negative start. -/
theorem foldl_probStep_eq (cells : List CellA) (l : List CellA) :
    ∀ p : ℚ, 0 ≤ p →
      l.foldl (probStep cells) p =
        l.foldl (fun a n => max a (specLocalProbability cells n)) p := by
  induction l with
  | nil => intro p _; rfl
  | cons n t ih =>
    intro p hp
    simp only [List.foldl]
    rcases Nat.eq_zero_or_pos (hiddenNeighbors cells n).length with h0 | hpos
    · have hstep : probStep cells p n = p := by
        simp [probStep, h0]
      have hspec : specLocalProbability cells n = 0 := by
        simp [specLocalProbability, h0]
      rw [hstep, hspec, max_eq_left hp]
      exact ih p hp
    · have hstep : probStep cells p n =
          max p (((n.number : ℚ) - (flaggedNeighbors cells n).length) /
            (hiddenNeighbors cells n).length) := by
        simp [probStep, hpos]
      have hspec : specLocalProbability cells n =
          ((n.number : ℚ) - (flaggedNeighbors cells n).length) /
            (hiddenNeighbors cells n).length := by
        simp [specLocalProbability, Nat.pos_iff_ne_zero.mp hpos]
      rw [hstep, hspec]
      exact ih _ (le_trans hp (le_max_left _ _))

end SiteAnalyzer

namespace GridAnalyzer

/-- The head of a list is a member. -/
theorem headMemG {l : List ScoredMove} {a : ScoredMove} (h : l.head? = some a) : a ∈ l := by
  cases l with
  | nil => simp at h
  | cons b t =>
    have hb : b = a := by simpa using h
    rw [← hb]
    exact List.mem_cons_self b t

/-- The last element of a list is a member. -/
theorem lastMemG {l : List ScoredMove} {a : ScoredMove} (h : l.getLast? = some a) : a ∈ l := by
  induction l with
  | nil => simp at h
  | cons b t ih =>
    cases t with
    | nil =>
      have hb : b = a := by simpa using h
      rw [← hb]
      exact List.mem_cons_self b []
    | cons c u =>
      rw [List.getLast?_cons_cons] at h
      exact List.mem_cons_of_mem b (ih h)

/-- Membership in an insertion step. -/
theorem mem_insertDesc {m a : ScoredMove} : ∀ {l : List ScoredMove},
    (a ∈ insertDesc m l ↔ a = m ∨ a ∈ l) := by
  intro l
  induction l with
  | nil => simp [insertDesc]
  | cons b t ih =>
    simp only [insertDesc]
    split
    · simp [List.mem_cons]
    · simp only [List.mem_cons, ih]
      tauto

/-- The insertion step never produces the empty list. -/
theorem insertDesc_ne_nil (m : ScoredMove) : ∀ l : List ScoredMove, insertDesc m l ≠ [] := by
  intro l
  cases l with
  | nil => simp [insertDesc]
  | cons b t =>
    simp only [insertDesc]
    split <;> simp

/-- The sort is membership-preserving. -/
theorem mem_sortByScoreDesc {a : ScoredMove} : ∀ {l : List ScoredMove},
    (a ∈ sortByScoreDesc l ↔ a ∈ l) := by
  intro l
  induction l with
  | nil => simp [sortByScoreDesc]
  | cons b t ih =>
    simp only [sortByScoreDesc, mem_insertDesc, List.mem_cons, ih]

/-- The sort of a non-empty list is non-empty. -/
theorem sortByScoreDesc_ne_nil {l : List ScoredMove} (h : l ≠ []) :
    sortByScoreDesc l ≠ [] := by
  cases l with
  | nil => exact absurd rfl h
  | cons b t => exact insertDesc_ne_nil b (sortByScoreDesc t)

/-- The head of the stable descending sort is the first element
attaining the maximal safetyScore. -/
theorem head_sort_eq_firstArgMax : ∀ l : List ScoredMove,
    (sortByScoreDesc l).head? = firstArgMax l := by
  intro l
  induction l with
  | nil => rfl
  | cons m t ih =>
    simp only [sortByScoreDesc, firstArgMax]
    cases hs : sortByScoreDesc t with
    | nil =>
      rw [hs] at ih
      rw [← ih]
      simp [insertDesc]
    | cons b rest =>
      rw [hs] at ih
      rw [← ih]
      simp only [insertDesc, List.head?_cons]
      split
      · rename_i hle
        simp [not_lt.mpr hle]
      · rename_i hgt
        simp [not_le.mp hgt]

/-- firstArgMax of a cons is always some. -/
theorem firstArgMax_cons_isSome (a : ScoredMove) (t : List ScoredMove) :
    (firstArgMax (a :: t)).isSome = true := by
  simp only [firstArgMax]
  cases firstArgMax t <;> simp

/-- firstArgMax returns none only on the empty list. -/
theorem firstArgMax_eq_none {l : List ScoredMove} (h : firstArgMax l = none) : l = [] := by
  cases l with
  | nil => rfl
  | cons a t =>
    have := firstArgMax_cons_isSome a t
    rw [h] at this
    simp at this

/-- firstArgMax returns a member. -/
theorem firstArgMax_mem : ∀ {l : List ScoredMove} {m : ScoredMove},
    firstArgMax l = some m → m ∈ l := by
  intro l
  induction l with
  | nil => intro m h; simp [firstArgMax] at h
  | cons a t ih =>
    intro m h
    simp only [firstArgMax] at h
    cases ht : firstArgMax t with
    | none =>
      rw [ht] at h
      have ha : a = m := by simpa using h
      rw [← ha]
      exact List.mem_cons_self a t
    | some b =>
      rw [ht] at h
      have hb : (if a.safetyScore < b.safetyScore then b else a) = m := by simpa using h
      by_cases hc : a.safetyScore < b.safetyScore
      · rw [if_pos hc] at hb
        rw [← hb]
        exact List.mem_cons_of_mem a (ih ht)
      · rw [if_neg hc] at hb
        rw [← hb]
        exact List.mem_cons_self a t

/-- firstArgMax returns an element of maximal safetyScore. -/
theorem firstArgMax_le : ∀ {l : List ScoredMove} {m : ScoredMove},
    firstArgMax l = some m → ∀ a ∈ l, a.safetyScore ≤ m.safetyScore := by
  intro l
  induction l with
  | nil => intro m h; simp [firstArgMax] at h
  | cons c t ih =>
    intro m h a ha
    simp only [firstArgMax] at h
    cases ht : firstArgMax t with
    | none =>
      rw [ht] at h
      have hc : c = m := by simpa using h
      have ht0 : t = [] := firstArgMax_eq_none ht
      subst ht0
      have : a = c := by simpa using ha
      rw [this, hc]
    | some b =>
      rw [ht] at h
      have hb : (if c.safetyScore < b.safetyScore then b else c) = m := by simpa using h
      rcases List.mem_cons.mp ha with hac | hat
      · subst hac
        by_cases hcb : a.safetyScore < b.safetyScore
        · rw [if_pos hcb] at hb
          rw [← hb]
          exact le_of_lt hcb
        · rw [if_neg hcb] at hb
          rw [← hb]
      · have hat2 : a.safetyScore ≤ b.safetyScore := ih ht a hat
        by_cases hcb : c.safetyScore < b.safetyScore
        · rw [if_pos hcb] at hb
          rw [← hb]
          exact hat2
        · rw [if_neg hcb] at hb
          rw [← hb]
          exact le_trans hat2 (not_lt.mp hcb)

/-- The weighted-random subtraction loop returns a member. -/
theorem wrcLoop_mem : ∀ {l : List ScoredMove} {r : ℚ} {m : ScoredMove},
    wrcLoop r l = some m → m ∈ l := by
  intro l
  induction l with
  | nil => intro r m h; simp [wrcLoop] at h
  | cons o t ih =>
    intro r m h
    simp only [wrcLoop] at h
    split at h
    · have : o = m := by simpa using h
      rw [← this]
      exact List.mem_cons_self o t
    · exact List.mem_cons_of_mem o (ih h)

/-- weightedRandomChoice returns a member. -/
theorem weightedRandomChoice_mem {r : ℚ} {l : List ScoredMove} {m : ScoredMove}
    (h : weightedRandomChoice r l = some m) : m ∈ l := by
  simp only [weightedRandomChoice] at h
  revert h
  cases hw : wrcLoop (r * ((l.map (fun o => o.safetyScore)).foldl (· + ·) 0)) l with
  | some o =>
    intro h
    have : o = m := by simpa using h
    rw [← this]
    exact wrcLoop_mem hw
  | none =>
    intro h
    exact lastMemG h

/-- weightedRandomChoice on a non-empty list returns some element. -/
theorem weightedRandomChoice_isSome {r : ℚ} {l : List ScoredMove} (h : l ≠ []) :
    (weightedRandomChoice r l).isSome = true := by
  simp only [weightedRandomChoice]
  cases hw : wrcLoop (r * ((l.map (fun o => o.safetyScore)).foldl (· + ·) 0)) l with
  | some o => simp
  | none =>
    simp only [Option.isSome]
    cases hl : l.getLast? with
    | none =>
      rw [List.getLast?_eq_none_iff] at hl
      exact absurd hl h
    | some a => simp

/-- selectBestMove returns a member of its candidate list. -/
theorem selectBestMove_mem {cfg : Config} {r : ℚ} {l : List ScoredMove} {m : ScoredMove}
    (h : selectBestMove cfg r l = some m) : m ∈ l := by
  cases l with
  | nil => simp [selectBestMove] at h
  | cons a t =>
    simp only [selectBestMove] at h
    split at h
    · exact headMemG h
    · revert h
      cases hg : (a :: t).filter (fun m => decide (cfg.probabilityThreshold < m.safetyScore)) with
      | nil => intro h; exact headMemG h
      | cons b u =>
        intro h
        have hm := weightedRandomChoice_mem h
        have hm2 : m ∈ b :: u := List.take_subset 3 (b :: u) hm
        rw [← hg] at hm2
        exact List.mem_of_mem_filter hm2

/-- selectBestMove on a non-empty list returns some move. -/
theorem selectBestMove_isSome {cfg : Config} {r : ℚ} {l : List ScoredMove} (h : l ≠ []) :
    (selectBestMove cfg r l).isSome = true := by
  cases l with
  | nil => exact absurd rfl h
  | cons a t =>
    simp only [selectBestMove]
    split
    · simp
    · cases hg : (a :: t).filter (fun m => decide (cfg.probabilityThreshold < m.safetyScore)) with
      | nil => simp
      | cons b u =>
        refine weightedRandomChoice_isSome ?_
        simp

end GridAnalyzer

namespace GridAnalyzer

/-- Membership in the moves of one row: exactly the hidden cells, with
the x coordinate offset by the start index. -/
theorem mem_rowMoves {mv : CandMove} {y : Int} : ∀ {x : Int} {row : List CellG},
    (mv ∈ rowMoves y x row ↔
      ∃ k : Nat, ∃ c : CellG, row[k]? = some c ∧ c.isRevealed = false ∧
        c.isFlagged = false ∧ mv = ⟨x + (k : Int), y, MoveType.reveal, c⟩) := by
  intro x row
  induction row generalizing x with
  | nil => simp [rowMoves]
  | cons c rest ih =>
    simp only [rowMoves, List.mem_append]
    constructor
    · rintro (h1 | h2)
      · by_cases hc : !c.isRevealed && !c.isFlagged
        · rw [if_pos hc, List.mem_singleton] at h1
          refine ⟨0, c, by simp, ?_, ?_, by simpa using h1⟩
          · simpa using (Bool.and_eq_true _ _ |>.mp hc).1
          · simpa using (Bool.and_eq_true _ _ |>.mp hc).2
        · rw [if_neg hc] at h1
          simp at h1
      · obtain ⟨k, c', hk, hr, hf, hmv⟩ := ih.mp h2
        refine ⟨k + 1, c', by simpa using hk, hr, hf, ?_⟩
        rw [hmv]
        congr 1
        push_cast
        ring
    · rintro ⟨k, c', hk, hr, hf, hmv⟩
      cases k with
      | zero =>
        left
        have hc : c = c' := by simpa using hk
        have hcond : (!c.isRevealed && !c.isFlagged) = true := by
          rw [hc]
          simp [hr, hf]
        rw [if_pos hcond, List.mem_singleton, hmv, ← hc]
        congr 1
        simp
      | succ k' =>
        right
        refine ih.mpr ⟨k', c', by simpa using hk, hr, hf, ?_⟩
        rw [hmv]
        congr 1
        push_cast
        ring

/-- Membership in the grid scan: a row index plus membership in that
row's moves. -/
theorem mem_gridMoves {mv : CandMove} : ∀ {y : Int} {g : Grid},
    (mv ∈ gridMoves y g ↔
      ∃ j : Nat, ∃ row, g[j]? = some row ∧ mv ∈ rowMoves (y + (j : Int)) 0 row) := by
  intro y g
  induction g generalizing y with
  | nil => simp [gridMoves]
  | cons row rest ih =>
    simp only [gridMoves, List.mem_append]
    constructor
    · rintro (h1 | h2)
      · exact ⟨0, row, by simp, by simpa using h1⟩
      · obtain ⟨j, row', hj, hmem⟩ := ih.mp h2
        refine ⟨j + 1, row', by simpa using hj, ?_⟩
        have : y + 1 + (j : Int) = y + ((j : Nat) + 1 : Nat) := by push_cast; ring
        rw [← this]
        exact hmem
    · rintro ⟨j, row', hj, hmem⟩
      cases j with
      | zero =>
        left
        have hr : row = row' := by simpa using hj
        subst hr
        simpa using hmem
      | succ j' =>
        right
        refine ih.mpr ⟨j', row', by simpa using hj, ?_⟩
        have : y + 1 + (j' : Int) = y + ((j' : Nat) + 1 : Nat) := by push_cast; ring
        rw [this]
        exact hmem

/-- A row produces no moves exactly when all its cells are revealed or
flagged. -/
theorem rowMoves_eq_nil {y : Int} : ∀ {x : Int} {row : List CellG},
    (rowMoves y x row = [] ↔
      ∀ c ∈ row, c.isRevealed = true ∨ c.isFlagged = true) := by
  intro x row
  induction row generalizing x with
  | nil => simp [rowMoves]
  | cons c rest ih =>
    simp only [rowMoves, List.append_eq_nil]
    constructor
    · rintro ⟨h1, h2⟩
      intro c' hc'
      rcases List.mem_cons.mp hc' with hcc | hrest
      · subst hcc
        by_cases hrev : c'.isRevealed
        · exact Or.inl hrev
        · by_cases hfl : c'.isFlagged
          · exact Or.inr hfl
          · rw [if_pos (by simp [hrev, hfl])] at h1
            simp at h1
      · exact ih.mp h2 c' hrest
    · intro hall
      constructor
      · have := hall c (List.mem_cons_self c rest)
        rcases this with hr | hf
        · rw [if_neg (by simp [hr])]
        · rw [if_neg (by simp [hf])]
      · exact ih.mpr (fun c' hc' => hall c' (List.mem_cons_of_mem c hc'))

/-- findPossibleMoves is empty exactly when no hidden cell exists. -/
theorem findPossibleMoves_eq_nil : ∀ {g : Grid},
    (findPossibleMoves g = [] ↔
      ∀ row ∈ g, ∀ c ∈ row, c.isRevealed = true ∨ c.isFlagged = true) := by
  have haux : ∀ (g : Grid) (y : Int),
      (gridMoves y g = [] ↔
        ∀ row ∈ g, ∀ c ∈ row, c.isRevealed = true ∨ c.isFlagged = true) := by
    intro g
    induction g with
    | nil => simp [gridMoves]
    | cons row rest ih =>
      intro y
      simp only [gridMoves, List.append_eq_nil]
      constructor
      · rintro ⟨h1, h2⟩
        intro row' hrow' c hc
        rcases List.mem_cons.mp hrow' with hrr | hrest
        · subst hrr
          exact rowMoves_eq_nil.mp h1 c hc
        · exact (ih (y + 1)).mp h2 row' hrest c hc
      · intro hall
        exact ⟨rowMoves_eq_nil.mpr (hall row (List.mem_cons_self row rest)),
          (ih (y + 1)).mpr (fun row' hr => hall row' (List.mem_cons_of_mem row hr))⟩
  intro g
  exact haux g 0

end GridAnalyzer

/-!
Claim theorems.
-/

open SiteAnalyzer in
/-- C1 (amended).  The claim says the deductive move finder returns
EVERY hidden neighbor of a satisfied numbered cell as a reveal move with
safety score 1.0 and mine probability 0.0.  What the code does: when the
first revealed cell with number above 0 (in cell-list order) on which
either rule fires satisfies the SAFE-REVEAL condition (flagged-neighbor
count equal to its number, at least one hidden neighbor), getNextMove
returns a SINGLE move: a click at the FIRST hidden neighbor, carrying
only a confidence field of value 1.0. -/
theorem claim1_theorem (cells pre post : List CellA) (c h : CellA)
    (hsplit : numberedCells cells = pre ++ c :: post)
    (hpre : ∀ a ∈ pre, deduceMove cells a = none)
    (hflag : ((flaggedNeighbors cells c).length : Int) = c.number)
    (hhead : (hiddenNeighbors cells c).head? = some h) :
    getNextMove cells = some ⟨h.x, h.y, ActionA.click, 1⟩ := by
  unfold getNextMove
  rw [hsplit]
  exact findSome?_first _ _ _ _ _ hpre (deduceMove_safe cells c h hflag hhead)

open SiteAnalyzer in
/-- C1 counterexample.  On boardA1 the revealed cell (0,0) with number 1
has its single flagged neighbor matching its number and TWO hidden
neighbors (0,1) and (1,1); the claim demands both be returned as reveal
moves, but getNextMove returns exactly one move and it targets (0,1), so
the hidden neighbor (1,1) is never returned. -/
theorem claim1_counterexample :
    (⟨0, 0, true, false, 1⟩ : CellA) ∈ numberedCells boardA1 ∧
    ((flaggedNeighbors boardA1 ⟨0, 0, true, false, 1⟩).length : Int) =
      (⟨0, 0, true, false, 1⟩ : CellA).number ∧
    (⟨1, 1, false, false, 0⟩ : CellA) ∈ hiddenNeighbors boardA1 ⟨0, 0, true, false, 1⟩ ∧
    getNextMove boardA1 = some ⟨0, 1, ActionA.click, 1⟩ := by
  refine ⟨by decide, by decide, by decide, by decide⟩

open SiteAnalyzer in
/-- C1 witness: the amended theorem applied to boardA1. -/
theorem claim1_witness : getNextMove boardA1 = some ⟨0, 1, ActionA.click, 1⟩ :=
  claim1_theorem boardA1 [] [] ⟨0, 0, true, false, 1⟩ ⟨0, 1, false, false, 0⟩
    (by decide) (by intro a ha; exact absurd ha (List.not_mem_nil a))
    (by decide) (by decide)

open SiteAnalyzer in
/-- C2 (amended).  The claim says every hidden neighbor of a cell with
flaggedNeighbors + hiddenNeighbors = number is returned as a flag move
with mine probability 1.0.  What the code does: when the first numbered
cell on which a rule fires satisfies the FORCED-FLAG condition,
getNextMove returns a SINGLE move: a flag at the FIRST hidden neighbor,
carrying a confidence field (not a probability field) of value 1.0. -/
theorem claim2_theorem (cells pre post : List CellA) (c h : CellA)
    (hsplit : numberedCells cells = pre ++ c :: post)
    (hpre : ∀ a ∈ pre, deduceMove cells a = none)
    (hsum : ((hiddenNeighbors cells c).length : Int) + (flaggedNeighbors cells c).length =
      c.number)
    (hhead : (hiddenNeighbors cells c).head? = some h) :
    getNextMove cells = some ⟨h.x, h.y, ActionA.flag, 1⟩ := by
  unfold getNextMove
  rw [hsplit]
  exact findSome?_first _ _ _ _ _ hpre (deduceMove_forced cells c h hsum hhead)

open SiteAnalyzer in
/-- C2 counterexample.  On boardA2 the revealed cell (0,0) with number 2
has zero flagged and TWO hidden neighbors, so the FORCED-FLAG premise
holds for both (0,1) and (1,1); the single returned move flags (0,1)
only, so (1,1) is never returned. -/
theorem claim2_counterexample :
    (⟨0, 0, true, false, 2⟩ : CellA) ∈ numberedCells boardA2 ∧
    ((hiddenNeighbors boardA2 ⟨0, 0, true, false, 2⟩).length : Int) +
      (flaggedNeighbors boardA2 ⟨0, 0, true, false, 2⟩).length =
      (⟨0, 0, true, false, 2⟩ : CellA).number ∧
    (⟨1, 1, false, false, 0⟩ : CellA) ∈ hiddenNeighbors boardA2 ⟨0, 0, true, false, 2⟩ ∧
    getNextMove boardA2 = some ⟨0, 1, ActionA.flag, 1⟩ := by
  refine ⟨by decide, by decide, by decide, by decide⟩

open SiteAnalyzer in
/-- C2 witness: the amended theorem applied to boardA2. -/
theorem claim2_witness : getNextMove boardA2 = some ⟨0, 1, ActionA.flag, 1⟩ :=
  claim2_theorem boardA2 [] [] ⟨0, 0, true, false, 2⟩ ⟨0, 1, false, false, 0⟩
    (by decide) (by intro a ha; exact absurd ha (List.not_mem_nil a))
    (by decide) (by decide)

open SiteAnalyzer in
/-- C3 (amended).  The claim says contradictory SAFE-REVEAL /
FORCED-FLAG conclusions about the same cell raise a
StaleObservationError.  No such error class exists anywhere in the
source and getNextMove is a total function with no error outcome: even
when a later numbered cell b concludes by FORCED-FLAG that the very cell
h is a mine, the scan silently returns the click move produced by the
first cell on which a rule fires. -/
theorem claim3_theorem (cells pre post : List CellA) (c b h : CellA)
    (hsplit : numberedCells cells = pre ++ c :: post)
    (hpre : ∀ a ∈ pre, deduceMove cells a = none)
    (hflag : ((flaggedNeighbors cells c).length : Int) = c.number)
    (hhead : (hiddenNeighbors cells c).head? = some h)
    (_hb : b ∈ numberedCells cells)
    (_hbsum : ((hiddenNeighbors cells b).length : Int) + (flaggedNeighbors cells b).length =
      b.number)
    (_hbh : h ∈ hiddenNeighbors cells b) :
    getNextMove cells = some ⟨h.x, h.y, ActionA.click, 1⟩ := by
  unfold getNextMove
  rw [hsplit]
  exact findSome?_first _ _ _ _ _ hpre (deduceMove_safe cells c h hflag hhead)

open SiteAnalyzer in
/-- C3 counterexample.  boardA3 is an inconsistent snapshot: cell (0,0)
(number 1, one flagged neighbor) concludes the hidden (1,0) is safe,
while cell (2,0) (number 1, (1,0) its only hidden neighbor, no flags)
concludes (1,0) is a mine.  The claim demands a StaleObservationError;
instead getNextMove silently returns the click conclusion. -/
theorem claim3_counterexample :
    ((⟨0, 0, true, false, 1⟩ : CellA) ∈ numberedCells boardA3 ∧
     ((flaggedNeighbors boardA3 ⟨0, 0, true, false, 1⟩).length : Int) =
       (⟨0, 0, true, false, 1⟩ : CellA).number ∧
     (⟨1, 0, false, false, 0⟩ : CellA) ∈ hiddenNeighbors boardA3 ⟨0, 0, true, false, 1⟩) ∧
    ((⟨2, 0, true, false, 1⟩ : CellA) ∈ numberedCells boardA3 ∧
     ((hiddenNeighbors boardA3 ⟨2, 0, true, false, 1⟩).length : Int) +
       (flaggedNeighbors boardA3 ⟨2, 0, true, false, 1⟩).length =
       (⟨2, 0, true, false, 1⟩ : CellA).number ∧
     (⟨1, 0, false, false, 0⟩ : CellA) ∈ hiddenNeighbors boardA3 ⟨2, 0, true, false, 1⟩) ∧
    getNextMove boardA3 = some ⟨1, 0, ActionA.click, 1⟩ := by
  refine ⟨⟨by decide, by decide, by decide⟩, ⟨by decide, by decide, by decide⟩, by decide⟩

open SiteAnalyzer in
/-- C3 witness: the amended theorem applied to the contradictory
boardA3. -/
theorem claim3_witness : getNextMove boardA3 = some ⟨1, 0, ActionA.click, 1⟩ :=
  claim3_theorem boardA3 [] [⟨2, 0, true, false, 1⟩] ⟨0, 0, true, false, 1⟩
    ⟨2, 0, true, false, 1⟩ ⟨1, 0, false, false, 0⟩
    (by decide) (by intro a ha; exact absurd ha (List.not_mem_nil a))
    (by decide) (by decide) (by decide) (by decide) (by decide)

open SiteAnalyzer in
/-- C5.  For a hidden cell with at least one revealed numbered neighbor,
the probability estimate of getProbabilityMove equals the maximum over
those neighbors of (number - flaggedCount) / hiddenCount (taking 0 when
the denominator is 0), floored at the base probability 0.15. -/
theorem claim5_theorem (cells : List CellA) (c : CellA)
    (_hmem : c ∈ hiddenCells cells)
    (_hne : numberedNeighbors cells c ≠ []) :
    mineProbability cells c =
      max (15/100)
        (((numberedNeighbors cells c).map (specLocalProbability cells)).foldl max 0) := by
  unfold mineProbability
  rw [foldl_probStep_eq cells _ (15/100) (by norm_num)]
  have hmap : (numberedNeighbors cells c).foldl
      (fun a n => max a (specLocalProbability cells n)) (15/100) =
      ((numberedNeighbors cells c).map (specLocalProbability cells)).foldl max (15/100) := by
    rw [List.foldl_map]
  rw [hmap]
  conv_lhs => rw [show (15/100 : ℚ) = max (15/100) 0 by norm_num]
  rw [foldl_max_shift]

open SiteAnalyzer in
/-- C5 witness: on boardA5 the hidden cell (0,0) has the single revealed
numbered neighbor (1,0) with number 2, one flagged and two hidden
neighbors, so the estimate is max(0.15, 1/2) = 1/2. -/
theorem claim5_witness : mineProbability boardA5 ⟨0, 0, false, false, 0⟩ = 1/2 := by
  have h := claim5_theorem boardA5 ⟨0, 0, false, false, 0⟩ (by decide)
    (by decide)
  rw [h]
  with_unfolding_all decide

open SiteAnalyzer in
/-- C7.  The probability estimators are deterministic: two runs on equal
inputs produce equal probability assignments, both for the per-cell
estimator of getProbabilityMove and for the base-rate estimator
calculateMineProbability of game.js; the embedded code contains no
random source. -/
theorem claim7_theorem (cells1 cells2 : List CellA) (g1 g2 : GridAnalyzer.Grid)
    (m1 m2 : ℚ) (hc : cells1 = cells2) (hg : g1 = g2) (hm : m1 = m2) :
    probabilityAssignment cells1 = probabilityAssignment cells2 ∧
    GridAnalyzer.calculateMineProbability g1 m1 =
      GridAnalyzer.calculateMineProbability g2 m2 := by
  subst hc
  subst hg
  subst hm
  exact ⟨rfl, rfl⟩

open SiteAnalyzer in
/-- C7 witness: the determinism theorem applied to concrete inputs. -/
theorem claim7_witness :
    probabilityAssignment boardA5 = probabilityAssignment boardA5 ∧
    GridAnalyzer.calculateMineProbability GridAnalyzer.gridTwoHidden 5 =
      GridAnalyzer.calculateMineProbability GridAnalyzer.gridTwoHidden 5 :=
  claim7_theorem boardA5 boardA5 GridAnalyzer.gridTwoHidden GridAnalyzer.gridTwoHidden
    5 5 rfl rfl rfl

open GridAnalyzer in
/-- C4 (amended).  Whenever at least one unrevealed-unflagged cell
remains, calculateMineProbability assigns the base rate
(totalMines - flaggedCount) / totalHiddenCells, with NO clamping to the
unit interval (the claim's clamping does not exist in the code; the
only numeric guard returns 0 when no hidden cell remains).  The fully
hidden 25-cell board with 5 mines receives 5/25 = 0.2, as the witness
evaluates. -/
theorem claim4_theorem (grid : Grid) (mines : ℚ)
    (h : 0 < (grid.length * row0len grid : Int) - countRevealed grid - countFlagged grid) :
    calculateMineProbability grid mines = specBaseRate grid mines := by
  simp only [calculateMineProbability, specBaseRate]
  rw [if_neg (by omega)]
  congr 1
  push_cast
  ring

open GridAnalyzer in
/-- C4 counterexample.  On a fully hidden 1 x 2 board with an
inconsistent total of 5 mines the code returns 5/2, which lies outside
the unit interval, refuting the claimed clamping to the unit
interval. -/
theorem claim4_counterexample :
    calculateMineProbability gridTwoHidden 5 = 5/2 ∧
    ¬ calculateMineProbability gridTwoHidden 5 ≤ 1 := by
  refine ⟨by with_unfolding_all decide, by with_unfolding_all decide⟩

open GridAnalyzer in
/-- C4 witness: the amended theorem applied to the fully hidden 5 x 5
board with 5 mines gives exactly 0.2. -/
theorem claim4_witness : calculateMineProbability grid55 5 = 1/5 := by
  have h := claim4_theorem grid55 5 (by decide)
  rw [h]
  with_unfolding_all decide

open GridAnalyzer in
/-- C6.  The boosted probability equals the base probability times the
corner factor 0.7 (else the edge factor 0.8, the two mutually
exclusive), times 0.6 exactly when the cell has revealed numbered
neighbors of mean number below 2, clamped to the unit interval; and the
boosted safety score is the combined pre-boost score times the flat 1.2
confidence multiplier, clamped to the unit interval. -/
theorem claim6_theorem (grid : Grid) (mines : ℚ) (x y : Int) :
    calculateEnhancedMineProbability grid mines x y =
      clamp01 (calculateMineProbability grid mines * specCornerEdgeFactor grid x y *
        specLowAvgFactor grid x y) ∧
    calculateCheatingSafetyScore grid mines x y =
      clamp01 ((12/10) * specPreCheatScore grid mines x y) := by
  constructor
  · simp only [calculateEnhancedMineProbability, specCornerEdgeFactor, specLowAvgFactor,
      specAvgNeighborNumber, clamp01]
    split_ifs <;> first | tauto | ring_nf
  · simp only [calculateCheatingSafetyScore, specPreCheatScore, clamp01]
    ring_nf

namespace GridAnalyzer

/-- selectBestMove returns none exactly on the empty candidate list. -/
theorem selectBestMove_none_iff {cfg : Config} {r : ℚ} {l : List ScoredMove} :
    (selectBestMove cfg r l = none ↔ l = []) := by
  constructor
  · intro h
    by_contra hne
    have := @selectBestMove_isSome cfg r l hne
    rw [h] at this
    simp at this
  · intro h
    subst h
    rfl

/-- On a well-typed grid, analyzeGameState is score-sort-select. -/
theorem analyzeGameState_some_grid (cfg : Config) (r : ℚ) (g : Grid) (mines : ℚ) :
    analyzeGameState cfg r ⟨some g, mines⟩ =
      selectBestMove cfg r (sortByScoreDesc (scoredMovesOf g mines)) := by
  simp only [analyzeGameState, analyzeGameStateCore]
  cases hfm : findPossibleMoves g with
  | nil =>
    have hsc : scoredMovesOf g mines = [] := by simp [scoredMovesOf, hfm]
    rw [hsc]
    rfl
  | cons a t => rfl

/-- The sort is empty exactly on the empty list. -/
theorem sortByScoreDesc_eq_nil_iff {l : List ScoredMove} :
    (sortByScoreDesc l = [] ↔ l = []) := by
  constructor
  · intro h
    by_contra hne
    exact sortByScoreDesc_ne_nil hne h
  · intro h
    subst h
    rfl

end GridAnalyzer

open GridAnalyzer in
/-- C8 (amended).  The claim says conservative mode returns a maximal
safetyScore candidate with ties broken by corner, then edge, then
lowest coordinate sum.  What the code does: analyzeGameState sorts the
scored list by descending safetyScore with a stable sort and the
conservative branch takes the first element, so the returned move has
maximal safetyScore and ties are broken by POSITION — the earliest
candidate in row-major enumeration order among those with maximal
score — which is deterministic but ignores corners and edges. -/
theorem claim8_theorem (cfg : Config) (r : ℚ) (l : List ScoredMove)
    (hcons : cfg.conservativeMode = true) (hne : l ≠ []) :
    selectBestMove cfg r (sortByScoreDesc l) = firstArgMax l ∧
    (firstArgMax l).isSome = true ∧
    (∀ m, firstArgMax l = some m → m ∈ l ∧ ∀ a ∈ l, a.safetyScore ≤ m.safetyScore) := by
  refine ⟨?_, ?_, ?_⟩
  · cases hsl : sortByScoreDesc l with
    | nil => exact absurd hsl (sortByScoreDesc_ne_nil hne)
    | cons a t =>
      rw [← head_sort_eq_firstArgMax l, hsl]
      simp [selectBestMove, hcons]
  · rw [← head_sort_eq_firstArgMax l]
    cases hsl : sortByScoreDesc l with
    | nil => exact absurd hsl (sortByScoreDesc_ne_nil hne)
    | cons a t => simp
  · intro m hm
    exact ⟨firstArgMax_mem hm, firstArgMax_le hm⟩

open GridAnalyzer in
/-- C8 counterexample.  On gridC8 with conservative mode the scored
candidates at (1,1) (interior: neither corner nor edge) and (3,3)
(corner) tie at the maximal safetyScore 1, so the claimed tie-break
would return the corner (3,3); the engine instead returns (1,1), the
earlier candidate in enumeration order. -/
theorem claim8_counterexample :
    (analyzeGameState cfgCons 0 gsC8).map (fun m => (m.x, m.y)) = some (1, 1) ∧
    calculateSafetyScore gridC8 3 3 = calculateSafetyScore gridC8 1 1 ∧
    ((scoredMovesOf gridC8 3).map (fun m => m.safetyScore)).all
      (fun s => decide (s ≤ calculateSafetyScore gridC8 3 3)) = true ∧
    isCornerCell gridC8 3 3 = true ∧
    isCornerCell gridC8 1 1 = false ∧
    isEdgeCell gridC8 1 1 = false := by
  refine ⟨?_, ?_, ?_, ?_, ?_, ?_⟩ <;> with_unfolding_all decide

open GridAnalyzer in
/-- C8 witness: on a two-element tied list the amended theorem gives the
first element. -/
theorem claim8_witness :
    selectBestMove cfgCons 0 (sortByScoreDesc tiedList) = some tiedMoveA := by
  have h := (claim8_theorem cfgCons 0 tiedList rfl (by decide)).1
  rw [h]
  with_unfolding_all decide

open GridAnalyzer in
/-- C9 (amended).  The claim says the engine raises InvalidGridError to
the caller on malformed grids and never swallows structural errors.
What the code does: the only structural check is the array check; its
throw is caught by the catch block of analyzeGameState itself, which
returns null — the same value as the normal no-move result — and for a
grid that IS an array (however malformed: ragged rows, zero dimensions)
the core never throws at all, returning a normal result. -/
theorem claim9_theorem (cfg : Config) (r : ℚ) (gs : GameStateG) :
    (gs.grid = none →
      analyzeGameStateCore cfg r gs = Except.error AnalyzeError.invalidGrid ∧
      analyzeGameState cfg r gs = none) ∧
    (∀ g, gs.grid = some g →
      analyzeGameStateCore cfg r gs = Except.ok (analyzeGameState cfg r gs)) := by
  obtain ⟨og, mines⟩ := gs
  constructor
  · intro h
    simp only at h
    subst h
    exact ⟨rfl, rfl⟩
  · intro g hgg
    simp only at hgg
    subst hgg
    simp only [analyzeGameState, analyzeGameStateCore]
    cases hfm : findPossibleMoves g with
    | nil => rfl
    | cons a t => rfl

open GridAnalyzer in
/-- C9 counterexample.  On the non-array grid the core throws but the
engine catches its own exception and returns null, indistinguishable
from the legitimate no-move answer on a fully revealed board; and on a
grid with rows of inconsistent lengths no error is raised at all — the
engine returns a normal move. -/
theorem claim9_counterexample :
    analyzeGameStateCore cfgCons 0 gsBadGrid = Except.error AnalyzeError.invalidGrid ∧
    analyzeGameState cfgCons 0 gsBadGrid = none ∧
    analyzeGameState cfgCons 0 gsAllRevealed = none ∧
    (analyzeGameState cfgCons 0 gsRagged).isSome = true ∧
    analyzeGameStateCore cfgCons 0 gsRagged =
      Except.ok (analyzeGameState cfgCons 0 gsRagged) := by
  refine ⟨rfl, rfl, by with_unfolding_all rfl, by with_unfolding_all rfl,
    by with_unfolding_all rfl⟩

open GridAnalyzer in
/-- C9 witness: the amended theorem applied to the non-array game
state. -/
theorem claim9_witness : analyzeGameState cfgCons 0 gsBadGrid = none :=
  ((claim9_theorem cfgCons 0 gsBadGrid).1 rfl).2

open GridAnalyzer in
/-- C10.  Every move analyzeGameState returns on a grid belongs to the
scored candidate list built from that grid, its coordinates address a
cell of the grid that is neither revealed nor flagged, and the engine
returns no move exactly when the grid has no hidden cell: the selector
never fabricates a move outside the enumerated candidates. -/
theorem claim10_theorem (cfg : Config) (r : ℚ) (gs : GameStateG) (g : Grid)
    (hg : gs.grid = some g) :
    (analyzeGameState cfg r gs = none ↔
       ∀ row ∈ g, ∀ c ∈ row, c.isRevealed = true ∨ c.isFlagged = true) ∧
    (∀ m, analyzeGameState cfg r gs = some m →
       m ∈ scoredMovesOf g gs.mines ∧ 0 ≤ m.x ∧ 0 ≤ m.y ∧
       ∃ c, cellAt g m.x m.y = some c ∧ c.isRevealed = false ∧ c.isFlagged = false ∧
         m.cell = c) := by
  obtain ⟨og, mines⟩ := gs
  subst hg
  rw [analyzeGameState_some_grid]
  constructor
  · rw [selectBestMove_none_iff, sortByScoreDesc_eq_nil_iff]
    have hmap : (scoredMovesOf g mines = [] ↔ findPossibleMoves g = []) := by
      simp [scoredMovesOf]
    rw [hmap, findPossibleMoves_eq_nil]
  · intro m hm
    have hmem : m ∈ sortByScoreDesc (scoredMovesOf g mines) := selectBestMove_mem hm
    have hmem2 : m ∈ scoredMovesOf g mines := mem_sortByScoreDesc.mp hmem
    refine ⟨hmem2, ?_⟩
    obtain ⟨cand, hcand, heq⟩ := List.mem_map.mp hmem2
    obtain ⟨j, row, hj, hrow⟩ := mem_gridMoves.mp hcand
    obtain ⟨k, c, hk, hr, hf, hcandeq⟩ := mem_rowMoves.mp hrow
    have hx : m.x = (k : Int) := by
      rw [← heq, hcandeq]
      simp [scoreMove]
    have hy : m.y = (j : Int) := by
      rw [← heq, hcandeq]
      simp [scoreMove]
    have hcell : m.cell = c := by
      rw [← heq, hcandeq]
      simp [scoreMove]
    refine ⟨by rw [hx]; positivity, by rw [hy]; positivity, c, ?_, hr, hf, hcell⟩
    rw [hx, hy]
    simp only [cellAt, idx?]
    rw [if_pos (by positivity), Int.toNat_natCast, hj]
    simp only [Option.some_bind]
    rw [if_pos (by positivity), Int.toNat_natCast, hk]

open GridAnalyzer in
/-- C10 witness: on the two-cell hidden board the engine does not return
the no-move answer. -/
theorem claim10_witness : analyzeGameState cfgCons 0 gsTwoHidden ≠ none := by
  intro hn
  have h := (claim10_theorem cfgCons 0 gsTwoHidden gridTwoHidden rfl).1.mp hn
  have h2 := h [hiddenCellG 0 0, hiddenCellG 1 0] (by decide) (hiddenCellG 0 0) (by decide)
  rcases h2 with h3 | h3 <;> exact absurd h3 (by decide)
